import Mathlib

/-!
Verification of the `conda-recipe-manager` parser core against its
natural-language specification.

The development shallowly embeds the constants, tables and regular
expressions of `conda_recipe_manager/parser/_types.py` together with the
document/converter operations they support.  Pure Python functions become
Lean functions on `List Char` / `String`; the regular expressions are
embedded as explicit character scanners with the same match semantics.
Components of the repository that are referenced by the tests but whose
source is not available (the structural parser, the converter driver, the
message table) are modelled from the specification; each such definition
carries a doc comment starting with `Modelled from the spec:`.
-/

namespace CondaRecipeManager

/-! ### Character helpers

`re` character classes used by the patterns in `_types.py`.  Braces are
written via their code points throughout. -/

/-- The character `\x7b` (opening curly brace). -/
def lbrace : Char := Char.ofNat 123

/-- The character `\x7d` (closing curly brace). -/
def rbrace : Char := Char.ofNat 125

/-- The double-quote character. -/
def dquoteChar : Char := Char.ofNat 34

/-- The single-quote character. -/
def squoteChar : Char := Char.ofNat 39

/-- ASCII whitespace recognized by the `\s` class of the embedded patterns
(space, tab, newline, carriage return, form feed, vertical tab). -/
def isWsChar (c : Char) : Bool :=
  c = ' ' || c = '\t' || c = '\n' || c = '\x0d' || c = '\x0b' || c = '\x0c'

/-- The quote alternation `("|')` of `Regex.PRE_PROCESS_ENVIRON`. -/
def isQuoteChar (c : Char) : Bool :=
  c = dquoteChar || c = squoteChar

/-! ### `Regex.JINJA_REPLACE_V0_STARTING_MARKER` and its substitution

`_types.py` defines the pattern `(?<!\$)\{\{`, used by the converter to
rewrite the legacy `\x7b\x7b name \x7d\x7d` substitution syntax to
`$\x7b\x7b name \x7d\x7d`.  `jinjaReplaceV0Go` embeds
`re.sub(JINJA_REPLACE_V0_STARTING_MARKER, "$\x7b\x7b", text)`:
the scanner walks the text left to right carrying one bit of state,
whether the previous character of the *original* text was `$` (Python
look-behinds read the original text), and rewrites each non-overlapping
match.  After a match the scan resumes after the matched pair, whose final
character is `\x7b`, hence the recursive state is `false`. -/
def jinjaReplaceV0Go (prevDollar : Bool) : List Char → List Char
  | [] => []
  | [c] => [c]
  | c :: c2 :: rest2 =>
    if c = lbrace ∧ c2 = lbrace then
      if prevDollar then c :: jinjaReplaceV0Go false (c2 :: rest2)
      else '$' :: c :: c2 :: jinjaReplaceV0Go false rest2
    else c :: jinjaReplaceV0Go (c = '$') (c2 :: rest2)

/-- The legacy-substitution upgrade applied by the converter:
`re.sub(Regex.JINJA_REPLACE_V0_STARTING_MARKER, "$\x7b\x7b", text)`. -/
def upgradeJinjaSub (s : String) : String :=
  String.mk (jinjaReplaceV0Go false s.data)

/-- Test for three consecutive `\x7b` characters in the text
(the configuration on which overlapping matches interact). -/
def hasTripleBrace : List Char → Bool
  | [] => false
  | c :: rest =>
    (c = lbrace && (match rest with
        | c2 :: c3 :: _ => c2 = lbrace && c3 = lbrace
        | _ => false))
    || hasTripleBrace rest

/-! ### Canonicalization tables

The four key-ordering tables of `_types.py`, kept in declaration order as
association lists (the Python dicts preserve insertion order). -/

/-- Table `TOP_LEVEL_KEY_SORT_ORDER` of `_types.py`. -/
def TOP_LEVEL_KEY_SORT_ORDER : List (String × Nat) :=
  [("schema_version", 0),
   ("context", 10),
   ("package", 20),
   ("recipe", 30),
   ("source", 40),
   ("files", 50),
   ("build", 60),
   ("requirements", 70),
   ("outputs", 80),
   ("test", 90),
   ("tests", 100),
   ("about", 110),
   ("extra", 120)]

/-- Table `V1_SOURCE_SECTION_KEY_SORT_ORDER` of `_types.py`. -/
def V1_SOURCE_SECTION_KEY_SORT_ORDER : List (String × Nat) :=
  [("url", 0),
   ("sha256", 10),
   ("md5", 20),
   ("path", 30),
   ("use_gitignore", 40),
   ("git", 50),
   ("branch", 60),
   ("tag", 70),
   ("rev", 80),
   ("depth", 90),
   ("lfs", 100),
   ("target_directory", 120),
   ("file_name", 130),
   ("patches", 140)]

/-- Table `V1_BUILD_SECTION_KEY_SORT_ORDER` of `_types.py`. -/
def V1_BUILD_SECTION_KEY_SORT_ORDER : List (String × Nat) :=
  [("number", 0),
   ("string", 10),
   ("skip", 20),
   ("noarch", 30),
   ("script", 40),
   ("merge_build_and_host_envs", 50),
   ("always_include_files", 60),
   ("always_copy_files", 70),
   ("variant", 80),
   ("python", 90),
   ("prefix_detection", 100),
   ("dynamic_linking", 110)]

/-- Table `V1_TEST_SECTION_KEY_SORT_ORDER` of `_types.py`. -/
def V1_TEST_SECTION_KEY_SORT_ORDER : List (String × Nat) :=
  [("script", 0),
   ("requirements", 10),
   ("files", 20),
   ("python", 30),
   ("downstream", 40)]

/-- Rank of a key under a canonicalization table: the table's integer for a
recognized key, `none` for an unrecognized key. -/
def keyRank (tbl : List (String × Nat)) (k : String) : Option Nat :=
  tbl.lookup k

/-- Comparison used to reorder mapping entries: ranked keys ascend by their
table rank and precede all unranked keys; unranked keys compare equal to
each other (so a stable sort keeps their original relative order). -/
def rankLe : Option Nat → Option Nat → Bool
  | some a, some b => a ≤ b
  | some _, none => true
  | none, some _ => false
  | none, none => true

/-! ### `SPDX_COMMON_MISSPELLINGS_TBL` and the license normalizer -/

/-- Table `SPDX_COMMON_MISSPELLINGS_TBL` of `_types.py`: known-malformed SPDX
identifiers (keyed by their uppercase form) mapped to canonical ones. -/
def SPDX_COMMON_MISSPELLINGS_TBL : List (String × String) :=
  [("APACHE LICENSE 1.0", "Apache-1.0"),
   ("APACHE LICENSE 1.1", "Apache-1.1"),
   ("APACHE LICENSE 2.0", "Apache-2.0"),
   ("BSD 1-CLAUSE", "BSD-1-Clause"),
   ("BSD 2-CLAUSE \x22SIMPLIFIED\x22", "BSD-2-Clause"),
   ("BSD_2_CLAUSE", "BSD-2-Clause"),
   ("BSD 3-CLAUSE", "BSD-3-Clause"),
   ("BSD_3_CLAUSE", "BSD-3-Clause"),
   ("GPL-2", "GPL-2.0"),
   ("GPL-3", "GPL-3.0")]

/-- Modelled from the spec: the license normalizer itself is not under
`src/` (only its table is).  "Performs an exact, case-sensitive lookup
against a fixed table of known-malformed identifiers ... returns input
unchanged if no entry matches." -/
def normalizeSpdx (s : String) : String :=
  (SPDX_COMMON_MISSPELLINGS_TBL.lookup s).getD s

/-! ### `Regex.PRE_PROCESS_ENVIRON` and the pre-processor

`_types.py` defines the pattern `\s+environ\[("|')(.*)("|')\]`, applied by
the conversion pre-processor.  The required leading whitespace prevents
matches against the qualified `os.environ[...]` form. -/

/-- Literal-text check: `checkLit lit s` returns the remainder of `s` after
the literal `lit`, or `none` when `s` does not start with `lit`. -/
def checkLit : List Char → List Char → Option (List Char)
  | [], s => some s
  | _ :: _, [] => none
  | c :: cs, d :: s => if c = d then checkLit cs s else none

/-- The greedy `(.*)("|')\]` part of `PRE_PROCESS_ENVIRON`: the *last*
position on the current line holding a quote character directly followed by
`]`, split into the content before it and the text after the `]`.  `.`
does not cross a newline. -/
def lastClose : List Char → Option (List Char × List Char)
  | [] => none
  | c :: rest =>
    if c = '\n' then none
    else
      match lastClose rest with
      | some (content, post) => some (c :: content, post)
      | none =>
        match rest with
        | d :: post => if isQuoteChar c && d = ']' then some ([], post) else none
        | [] => none

/-- The literal `environ[` of `PRE_PROCESS_ENVIRON`. -/
def environLit : List Char := ['e', 'n', 'v', 'i', 'r', 'o', 'n', '[']

/-- A match of `PRE_PROCESS_ENVIRON` starting at the head of `s`: one or
more whitespace characters, the literal `environ[`, an opening quote, the
greedy content and the closing quote plus `]`.  Returns the opening quote,
the content, and the text after the match. -/
def environMatchAt (s : List Char) : Option (Char × List Char × List Char) :=
  match s with
  | [] => none
  | c :: _ =>
    if isWsChar c then
      match checkLit environLit (s.dropWhile isWsChar) with
      | some afterLit =>
        match afterLit with
        | q :: afterQuote =>
          if isQuoteChar q then
            match lastClose afterQuote with
            | some (content, post) => some (q, content, post)
            | none => none
          else none
        | [] => none
      | none => none
    else none

/-- Test for a `PRE_PROCESS_ENVIRON` match somewhere in the text. -/
def hasEnvironMatch : List Char → Bool
  | [] => false
  | c :: rest => (environMatchAt (c :: rest)).isSome || hasEnvironMatch rest

/-- Modelled from the spec: the replacement text used by the pre-processor
is not under `src/`; the spec only requires the lookup idiom to be
rewritten "into a form parsable by the structural parser".  The theorems
below depend only on where the rewrite applies, never on this text. -/
def environRewrite (q : Char) (content : List Char) : List Char :=
  (" os.environ.get(").data ++ q :: content ++ q :: (")").data

/-- Scanner of the pre-processor's `re.sub` over `PRE_PROCESS_ENVIRON`:
leftmost non-overlapping matches are rewritten, everything else is copied.
The `fuel` argument only bounds the recursion; every step consumes at
least one character, so `fuel = length` computes the full result. -/
def ppEnvironAux : Nat → List Char → List Char
  | 0, s => s
  | _ + 1, [] => []
  | fuel + 1, c :: rest =>
    match environMatchAt (c :: rest) with
    | some (q, content, post) => environRewrite q content ++ ppEnvironAux fuel post
    | none => c :: ppEnvironAux fuel rest

/-- Modelled from the spec: `RecipeParserConvert.pre_process_recipe_text`
is not under `src/` (only its regular expression and its test are).  "A
pure function, total over all input strings"; this model applies the
`PRE_PROCESS_ENVIRON` rewrite, the stage named by claim C7. -/
def pre_process_recipe_text (s : String) : String :=
  String.mk (ppEnvironAux s.data.length s.data)

/-! ### `Regex.MULTILINE`

`_types.py` defines `^\s*.*:\s+(\||>)(\+|\-)?(\s*|\s+#.*)`.  A Python
`re.match` against it succeeds exactly when, after the leading whitespace,
a `:` is reachable without crossing a newline and is followed by at least
one whitespace character and then `|` or `>`: the chomping group is
optional and the final group accepts the empty string, so nothing after
the indicator is constrained. -/

/-- After `:\s+`: optional further whitespace, then the `(\||>)` group. -/
def pipeAfterWs : List Char → Bool
  | [] => false
  | c :: rest => (c = '|' || c = '>') || (isWsChar c && pipeAfterWs rest)

/-- The `\s+(\||>)` part: at least one whitespace then `|` or `>`. -/
def wsThenPipe : List Char → Bool
  | [] => false
  | c :: rest => isWsChar c && pipeAfterWs rest

/-- The `.*:\s+(\||>)` part: a `:` reachable without crossing a newline,
followed by `\s+(\||>)`. -/
def mmScan : List Char → Bool
  | [] => false
  | c :: rest =>
    if c = '\n' then false
    else (c = ':' && wsThenPipe rest) || mmScan rest

/-- Truthiness of a `Regex.MULTILINE` match against a line. -/
def multilineMatched (line : List Char) : Bool :=
  mmScan (line.dropWhile isWsChar)

/-- Whitespace-only tail, per the `\s*` alternative of the final group. -/
def allWsTail (l : List Char) : Bool :=
  l.all isWsChar

/-- The `\s+#.*` alternative of the final group: at least one whitespace
character and then a `#` trailing comment. -/
def wsThenComment : List Char → Bool
  | [] => false
  | c :: rest => isWsChar c && (rest.head? = some '#' || wsThenComment rest)

/-- Tail allowed after the style indicator by claim C8: an optional single
chomping indicator, then nothing but whitespace, or whitespace and a
trailing `#` comment. -/
def blockScalarTail : List Char → Bool
  | [] => true
  | c :: rest =>
    if c = '+' || c = '-' then allWsTail rest || wsThenComment rest
    else allWsTail (c :: rest) || wsThenComment (c :: rest)

/-- After the `:`: at least one whitespace (more allowed), then `|` or `>`
with a tail of the claimed shape. -/
def pipeTailAfterWs : List Char → Bool
  | [] => false
  | c :: rest =>
    ((c = '|' || c = '>') && blockScalarTail rest) || (isWsChar c && pipeTailAfterWs rest)

/-- The lines described by claim C8 (this definition follows the claim's
words, to be compared against `multilineMatched`, which follows the
source pattern): a mapping key's value introduced by `|` or `>`,
optionally one chomping indicator `+`/`-`, followed by nothing but
whitespace or by whitespace and a trailing `#` comment. -/
def blockScalarLineSpec : List Char → Bool
  | [] => false
  | c :: rest => (c = ':' && (match rest with
      | d :: rest2 => isWsChar d && pipeTailAfterWs rest2
      | [] => false)) || blockScalarLineSpec rest

/-! ### `Regex.JINJA_LINE` and `Regex.JINJA_SET_LINE`

`_types.py` defines `JINJA_LINE = ({%.*%}|{#.*#})\n` and
`JINJA_SET_LINE = {%\s*set\s*VAR\s*=.*%}\s*\n` where `VAR` is
`[a-zA-Z_][a-zA-Z0-9_\|\'\"\(\)\, =\.\-]*`.  Both are embedded as
match-existence scanners. -/

/-- Scanner for the closing part of a control group: a `%` followed by `\x7d` and a newline, reachable without
crossing a newline. -/
def closesPctNl : List Char → Bool
  | [] => false
  | c :: rest =>
    if c = '\n' then false
    else (c = '%' && (match rest with
        | d :: e :: _ => d = rbrace && e = '\n'
        | _ => false))
      || closesPctNl rest

/-- Scanner for the closing part of a comment group: a `#` followed by `\x7d` and a newline, reachable without
crossing a newline. -/
def closesHashNl : List Char → Bool
  | [] => false
  | c :: rest =>
    if c = '\n' then false
    else (c = '#' && (match rest with
        | d :: e :: _ => d = rbrace && e = '\n'
        | _ => false))
      || closesHashNl rest

/-- Match-existence of `Regex.JINJA_LINE` in the text. -/
def hasJinjaLineMatch : List Char → Bool
  | [] => false
  | c :: rest =>
    (c = lbrace && (match rest with
        | d :: rest2 => (d = '%' && closesPctNl rest2) || (d = '#' && closesHashNl rest2)
        | [] => false))
    || hasJinjaLineMatch rest

/-- The `[a-zA-Z_]` start of the Jinja variable-name pattern. -/
def isVarStartChar (c : Char) : Bool :=
  ('a' ≤ c && c ≤ 'z') || ('A' ≤ c && c ≤ 'Z') || c = '_'

/-- The continuation class `[a-zA-Z0-9_\|\'\"\(\)\, =\.\-]` of the Jinja
variable-name pattern. -/
def isVarBodyChar (c : Char) : Bool :=
  isVarStartChar c || ('0' ≤ c && c ≤ '9') || c = '|' || c = squoteChar || c = dquoteChar
    || c = '(' || c = ')' || c = ',' || c = ' ' || c = '=' || c = '.' || c = '-'

/-- Suffix requirement of `JINJA_SET_LINE` after the percent group: whitespace then a
newline. -/
def wsThenNl : List Char → Bool
  | [] => false
  | c :: rest => c = '\n' || (isWsChar c && wsThenNl rest)

/-- Scanner for the closing of a set line: a `%` followed by `\x7d` and whitespace then newline, reachable without
crossing a newline. -/
def closesPctWsNl : List Char → Bool
  | [] => false
  | c :: rest =>
    if c = '\n' then false
    else (c = '%' && (match rest with
        | d :: rest2 => d = rbrace && wsThenNl rest2
        | [] => false))
      || closesPctWsNl rest

/-- Whitespace then `=` then the closing scan, after the variable name left the
body character class. -/
def wsThenEqClose : List Char → Bool
  | [] => false
  | c :: rest => (c = '=' && closesPctWsNl rest) || (isWsChar c && wsThenEqClose rest)

/-- Variable-name continuation then `\s*=` then the closing `.*%}\s*\n`. -/
def bodyThenEqClose : List Char → Bool
  | [] => false
  | c :: rest =>
    (c = '=' && closesPctWsNl rest)
      || (isVarBodyChar c && bodyThenEqClose rest)
      || (isWsChar c && wsThenEqClose rest)

/-- Whitespace then the variable name's start character then its continuation,
as required between `set` and `=`. -/
def setVarScan : List Char → Bool
  | [] => false
  | c :: rest => (isVarStartChar c && bodyThenEqClose rest) || (isWsChar c && setVarScan rest)

/-- Whitespace then `set` then the variable/assignment part of `JINJA_SET_LINE`. -/
def setAfterPct : List Char → Bool
  | [] => false
  | c :: rest =>
    (c = 's' && (match rest with
        | 'e' :: 't' :: rest2 => setVarScan rest2
        | _ => false))
    || (isWsChar c && setAfterPct rest)

/-- Match-existence of `Regex.JINJA_SET_LINE` in the text. -/
def hasJinjaSetLineMatch : List Char → Bool
  | [] => false
  | c :: rest =>
    (c = lbrace && (match rest with
        | d :: rest2 => d = '%' && setAfterPct rest2
        | [] => false))
    || hasJinjaSetLineMatch rest

/-! ### Document model, message table and converter

The `RecipeParser` / `RecipeParserConvert` classes and the message table
are referenced by the tests but their source is not under `src/`; the
definitions below are modelled from the specification (sections 3, 4.2,
4.3 and 4.6). -/

/-- Modelled from the spec: the parse-tree node of the document model
(`Scalar(value, selector?)`, `Sequence(children, selector?)`,
`Mapping(ordered (key, node) pairs, selector?)`); the style/comment
annotations of untouched nodes are elided. -/
inductive Node where
  | scalar (value : String) (selector : Option String)
  | sequence (children : List Node) (selector : Option String)
  | mapping (entries : List (String × Node)) (selector : Option String)

/-- The optional conditional-inclusion selector attached to a node. -/
def Node.selectorOf : Node → Option String
  | .scalar _ s => s
  | .sequence _ s => s
  | .mapping _ s => s

/-- Constant `ROOT_NODE_VALUE` of `_types.py`: the string representing a root node
in a path. -/
def ROOT_NODE_VALUE : String := "/"

/-- Slash-joined canonical string form of a path. -/
def pathStr (segs : List String) : String :=
  match segs with
  | [] => ROOT_NODE_VALUE
  | _ => "/" ++ String.intercalate "/" segs

/-- The WARNING text recorded for a selector on a non-list item, as
asserted by `test_render_to_v1_recipe_format`. -/
def selectorWarningMsg (segs : List String) : String :=
  "A non-list item had a selector at: " ++ pathStr segs

/-- Modelled from the spec: `MessageCategory` of `parser/types.py` (not
under `src/`), the diagnostic categories of the message table. -/
inductive MessageCategory where
  | ERROR
  | WARNING

/-- Modelled from the spec: the Message Table, "a mapping from diagnostic
category to an insertion-ordered sequence of human-readable strings". -/
structure MessageTable where
  errors : List String
  warnings : List String

/-- Appends a diagnostic, preserving insertion order and duplicates. -/
def MessageTable.add_message (t : MessageTable) : MessageCategory → String → MessageTable
  | .ERROR, m => { t with errors := t.errors ++ [m] }
  | .WARNING, m => { t with warnings := t.warnings ++ [m] }

/-- The ordered diagnostics of one category. -/
def MessageTable.get_messages (t : MessageTable) : MessageCategory → List String
  | .ERROR => t.errors
  | .WARNING => t.warnings

/-- Modelled from the spec: serialization of a tree back to text
(flow-style; the formatting-preservation layer is elided).  A bare scalar
with no selector renders as its own text. -/
def renderSelComment : Option String → String
  | none => ""
  | some sel => "  # [" ++ sel ++ "]"

mutual

/-- Modelled from the spec: `render()` of one node. -/
def renderNode : Node → String
  | .scalar v none => v
  | .scalar v (some sel) => v ++ renderSelComment (some sel)
  | .sequence items sel => "[" ++ renderItems items ++ "]" ++ renderSelComment sel
  | .mapping entries sel =>
      lbrace.toString ++ renderEntries entries ++ rbrace.toString ++ renderSelComment sel

/-- Sequence children rendering. -/
def renderItems : List Node → String
  | [] => ""
  | [n] => renderNode n
  | n :: rest => renderNode n ++ ", " ++ renderItems rest

/-- Mapping entries rendering. -/
def renderEntries : List (String × Node) → String
  | [] => ""
  | [(k, v)] => k ++ ": " ++ renderNode v
  | (k, v) :: rest => k ++ ": " ++ renderNode v ++ ", " ++ renderEntries rest

end

/-- Modelled from the spec: the Document, owning "a root Node, the
original source text, and a modification flag". -/
structure RecipeParser where
  init_content : String
  root : Node
  modified : Bool

/-- Serialization of the tree back to document text (`render()`). -/
def RecipeParser.render (d : RecipeParser) : String :=
  renderNode d.root

/-- Read of the modification flag (`is_modified()`), O(1). -/
def RecipeParser.is_modified (d : RecipeParser) : Bool :=
  d.modified

/-- Delta of the current state against the originally loaded
text; empty exactly when the rendered output equals the original. -/
def RecipeParser.diff (d : RecipeParser) : String :=
  if d.render = d.init_content then ""
  else "- " ++ d.init_content ++ "\n+ " ++ d.render

/-- Modelled from the spec: construction of a Document from source text.
The structural parser is not under `src/`; the spec's round-trip guarantee
("`render()` reproduces `T` exactly") is modelled by loading the text as
the root scalar, so that it holds by construction. -/
def loadRecipe (t : String) : RecipeParser :=
  ⟨t, Node.scalar t none, false⟩

/-- Write of a node at a path (`set`): replaces along an existing path, or
appends a new key at an existing mapping parent; `none` models
`NotFoundError`/`TypeConflictError`. -/
def setNode (root : Node) : List String → Node → Option Node
  | [], repl => some repl
  | k :: rest, repl =>
    match root with
    | .scalar _ _ => none
    | .mapping entries sel =>
      match entries.lookup k with
      | some child =>
        match setNode child rest repl with
        | some child2 =>
            some (.mapping (entries.map fun e => if e.1 = k then (e.1, child2) else e) sel)
        | none => none
      | none =>
        match rest with
        | [] => some (.mapping (entries ++ [(k, repl)]) sel)
        | _ => none
    | .sequence items sel =>
      match k.toNat? with
      | some i =>
        match items[i]? with
        | some child =>
          match setNode child rest repl with
          | some child2 => some (.sequence (items.set i child2) sel)
          | none => none
        | none => none
      | none => none

/-- Removal at a path (`remove`): removes an existing child, leaving an
empty container in place of a last child; `none` models the errors. -/
def removeNode (root : Node) : List String → Option Node
  | [] => none
  | [k] =>
    match root with
    | .scalar _ _ => none
    | .mapping entries sel =>
      if (entries.lookup k).isSome then
        some (.mapping (entries.filter fun e => !(e.1 = k)) sel)
      else none
    | .sequence items sel =>
      match k.toNat? with
      | some i => if i < items.length then some (.sequence (items.eraseIdx i) sel) else none
      | none => none
  | k :: rest =>
    match root with
    | .scalar _ _ => none
    | .mapping entries sel =>
      match entries.lookup k with
      | some child =>
        match removeNode child rest with
        | some child2 =>
            some (.mapping (entries.map fun e => if e.1 = k then (e.1, child2) else e) sel)
        | none => none
      | none => none
    | .sequence items sel =>
      match k.toNat? with
      | some i =>
        match items[i]? with
        | some child =>
          match removeNode child rest with
          | some child2 => some (.sequence (items.set i child2) sel)
          | none => none
        | none => none
      | none => none

/-- Modelled from the spec: the mutating operations of the document model
plus the explicit "mark clean". -/
inductive DocOp where
  | set_value (path : List String) (n : Node)
  | remove_value (path : List String)
  | mark_clean

/-- Test for the mutating operations (`set`/`remove`). -/
def DocOp.isMutating : DocOp → Bool
  | .mark_clean => false
  | _ => true

/-- Modelled from the spec: applying one operation to a Document.  A
mutating operation raises the modification flag; "mark clean" clears
it. -/
def applyOp (d : RecipeParser) : DocOp → RecipeParser
  | .set_value p n => { d with root := (setNode d.root p n).getD d.root, modified := true }
  | .remove_value p => { d with root := (removeNode d.root p).getD d.root, modified := true }
  | .mark_clean => { d with modified := false }

/-- Applying a sequence of operations in order. -/
def applyOps (d : RecipeParser) (ops : List DocOp) : RecipeParser :=
  ops.foldl applyOp d

/-- One step of collecting the operations applied since the last
"mark clean". -/
def cleanStep (acc : List DocOp) (op : DocOp) : List DocOp :=
  match op with
  | .mark_clean => []
  | o => acc ++ [o]

/-- The operations applied since the last "mark clean" (all of them when
none occurred). -/
def opsSinceLastClean (ops : List DocOp) : List DocOp :=
  ops.foldl cleanStep []

/-- One step of the modification flag under an operation. -/
def flagStep (_ : Bool) (op : DocOp) : Bool :=
  match op with
  | .mark_clean => false
  | _ => true

/-- The modification flag after a sequence of operations. -/
def flagAfter (b : Bool) (ops : List DocOp) : Bool :=
  ops.foldl flagStep b

mutual

/-- Modelled from the spec: the converter's selector walk over one node.
"Wherever a selector is attached to a non-list-item node" — i.e. to the
value of a mapping entry — the WARNING of section 4.3 is appended, in the
order encountered; selectors on sequence items themselves are legal and
silent. -/
def selWarnNode (path : List String) : Node → List String
  | .scalar _ _ => []
  | .sequence items _ => selWarnItems path 0 items
  | .mapping entries _ => selWarnEntries path entries

/-- Walk of sequence children, with numeric path segments. -/
def selWarnItems (path : List String) (i : Nat) : List Node → List String
  | [] => []
  | n :: rest => selWarnNode (path ++ [toString i]) n ++ selWarnItems path (i + 1) rest

/-- Walk of mapping entries: an entry whose value carries a selector is
warned about, then the walk descends. -/
def selWarnEntries (path : List String) : List (String × Node) → List String
  | [] => []
  | (k, v) :: rest =>
    (if (Node.selectorOf v).isSome then [selectorWarningMsg (path ++ [k])] else [])
      ++ selWarnNode (path ++ [k]) v ++ selWarnEntries path rest

end

/-- Modelled from the spec and `test_render_to_v1_recipe_format`: the
per-output conversion pass repeats the selector walk on each entry of the
`/outputs` sequence (the recorded warnings for `google-cloud-cpp.yaml`
show each output's warning twice: once from the whole-tree walk, once
from the per-output pass). -/
def outputsSecondPassWarnings (root : Node) : List String :=
  match root with
  | .mapping entries _ =>
    match entries.lookup "outputs" with
    | some (.sequence items _) => selWarnItems ["outputs"] 0 items
    | _ => []
  | _ => []

/-- All selector WARNINGs recorded during one conversion, in the order
encountered. -/
def convertSelectorWarnings (root : Node) : List String :=
  selWarnNode [] root ++ outputsSecondPassWarnings root

/-- Canonical re-ordering of mapping entries under a table (section 4.4):
a stable sort by table rank, unranked keys after all ranked ones. -/
def sortMappingEntries (tbl : List (String × Nat)) (entries : List (String × α)) :
    List (String × α) :=
  entries.mergeSort fun a b => rankLe (keyRank tbl a.1) (keyRank tbl b.1)

/-- Re-ordering of the document's top-level mapping under
`TOP_LEVEL_KEY_SORT_ORDER`. -/
def reorderTopLevelKeys : Node → Node
  | .mapping entries sel => .mapping (sortMappingEntries TOP_LEVEL_KEY_SORT_ORDER entries) sel
  | n => n

/-- Modelled from the spec: the discriminated conversion outcome. -/
inductive ConversionResult where
  | SUCCESS
  | SUCCESS_WITH_WARNINGS
  | FAILURE

/-- Modelled from the spec: `render_to_v1_recipe_format` of
`RecipeParserConvert` (not under `src/`).  The conversion works on a
working copy — the second component of the result is the state of the
input Document after the call, which the algorithm never touches (spec
4.6 step 1: "Clone the source tree into a working copy").  The modelled
pipeline covers the steps exercised by the claims: the selector-warning
walks, the canonical top-level re-ordering, and the legacy-substitution
upgrade of the rendered text. -/
def render_to_v1_recipe_format (d : RecipeParser) :
    (String × MessageTable × ConversionResult) × RecipeParser :=
  let warnings := convertSelectorWarnings d.root
  let work := reorderTopLevelKeys d.root
  let tbl : MessageTable := ⟨[], warnings⟩
  let txt := upgradeJinjaSub (renderNode work)
  ((txt, tbl, if warnings.isEmpty then .SUCCESS else .SUCCESS_WITH_WARNINGS), d)

/-! ### Concrete scenario data

Trees and texts matching the scenarios of
`test_render_to_v1_recipe_format` and `test_pre_process_recipe_text`. -/

/-- One entry of the `/outputs` sequence of the `google-cloud-cpp.yaml`
scenario: its `script` value carries a selector while its parent
container is a mapping. -/
def gcOutput (script : String) : Node :=
  .mapping [("script", .scalar script (some "unix"))] none

/-- The tree shape of the `google-cloud-cpp.yaml` scenario: two outputs,
each with a selector on its `script` value. -/
def gcTree : Node :=
  .mapping [("outputs", .sequence [gcOutput "run_a.sh", gcOutput "run_b.sh"] none)] none

/-- A Document holding `gcTree`. -/
def gcRecipe : RecipeParser :=
  ⟨"", gcTree, false⟩

/-- The tree shape of the `simple-recipe.yaml` scenario: a selector on the
`/package/name` value and one on the `/requirements/empty_field2`
value. -/
def simpleTree : Node :=
  .mapping
    [("package", .mapping [("name", .scalar "types-toml" (some "unix"))] none),
     ("requirements", .mapping [("empty_field2", .sequence [] (some "unix and win"))] none)]
    none

/-- A Document holding `simpleTree`. -/
def simpleRecipe : RecipeParser :=
  ⟨"", simpleTree, false⟩

/-- The text `\x7b\x7b\x7b` (three opening braces). -/
def tripleBraceText : String :=
  String.mk [lbrace, lbrace, lbrace]

/-- The text `$\x7b\x7b x \x7d\x7d` (already in the new syntax). -/
def newSyntaxText : String :=
  String.mk ['$', lbrace, lbrace, ' ', 'x', ' ', rbrace, rbrace]

/-- The text `\x7b\x7b x \x7d\x7d` (legacy substitution syntax). -/
def legacySyntaxText : String :=
  String.mk [lbrace, lbrace, ' ', 'x', ' ', rbrace, rbrace]

/-- A small top-level mapping with ranked and unranked keys in arbitrary
order (values stand in for subtrees). -/
def sampleEntries : List (String × Nat) :=
  [("about", 1), ("zzz", 2), ("package", 3), ("aaa", 4), ("source", 5)]

/-- The control line `\x7b% set x = 1 %\x7d` without its newline. -/
def exampleSetLine : List Char :=
  [lbrace, '%'] ++ (" set x = 1 ").data ++ ['%', rbrace]

/-- The comment control line `\x7b# note #\x7d` without its newline. -/
def exampleCommentLine : List Char :=
  [lbrace, '#'] ++ (" note ").data ++ ['#', rbrace]

/-! ## Theorems -/

/-- Claim C9: in each of the four canonicalization tables the assigned
integer ranks are strictly increasing in declaration order and pairwise
distinct, so the canonical relative order of any two keys ranked by the
same table is uniquely determined and no tie-breaking between ranked keys
is needed. -/
theorem claim_c9_table_ranks_strictly_increasing :
    List.Pairwise (· < ·) (TOP_LEVEL_KEY_SORT_ORDER.map Prod.snd)
    ∧ (TOP_LEVEL_KEY_SORT_ORDER.map Prod.snd).Nodup
    ∧ List.Pairwise (· < ·) (V1_SOURCE_SECTION_KEY_SORT_ORDER.map Prod.snd)
    ∧ (V1_SOURCE_SECTION_KEY_SORT_ORDER.map Prod.snd).Nodup
    ∧ List.Pairwise (· < ·) (V1_BUILD_SECTION_KEY_SORT_ORDER.map Prod.snd)
    ∧ (V1_BUILD_SECTION_KEY_SORT_ORDER.map Prod.snd).Nodup
    ∧ List.Pairwise (· < ·) (V1_TEST_SECTION_KEY_SORT_ORDER.map Prod.snd)
    ∧ (V1_TEST_SECTION_KEY_SORT_ORDER.map Prod.snd).Nodup := by
  decide

/-- Claim C6: the license normalizer returns the canonical identifier
mapped to `s` when `s` is exactly (case-sensitively) a key of the fixed
misspelling table, and returns `s` unchanged otherwise; in particular
`normalize("BSD 3-CLAUSE") = "BSD-3-Clause"` and
`normalize("MIT") = "MIT"`. -/
theorem claim_c6_license_normalization :
    (∀ s v : String, (s, v) ∈ SPDX_COMMON_MISSPELLINGS_TBL → normalizeSpdx s = v)
    ∧ (∀ s : String, SPDX_COMMON_MISSPELLINGS_TBL.lookup s = none → normalizeSpdx s = s)
    ∧ normalizeSpdx "BSD 3-CLAUSE" = "BSD-3-Clause"
    ∧ normalizeSpdx "MIT" = "MIT" := by
  refine ⟨?_, ?_, by decide, by decide⟩
  · intro s v h
    fin_cases h <;> decide
  · intro s h
    simp [normalizeSpdx, h]

/-- Witness for claim C6 at concrete inputs. -/
theorem claim_c6_license_normalization_witness :
    normalizeSpdx "GPL-2" = "GPL-2.0" ∧ normalizeSpdx "MIT License" = "MIT License" :=
  ⟨claim_c6_license_normalization.1 "GPL-2" "GPL-2.0" (by decide),
   claim_c6_license_normalization.2.1 "MIT License" (by decide)⟩

/-- Claim C1: the V0-to-V1 conversion does not mutate the input Document:
the input's state after the call is the input itself, and on any loaded
Document the modification flag stays `false` and the diff stays empty
after conversion, regardless of the conversion's outcome. -/
theorem claim_c1_conversion_does_not_mutate_input :
    (∀ d : RecipeParser, (render_to_v1_recipe_format d).2 = d)
    ∧ (∀ t : String, (render_to_v1_recipe_format (loadRecipe t)).2.is_modified = false)
    ∧ (∀ t : String, (render_to_v1_recipe_format (loadRecipe t)).2.diff = "") := by
  refine ⟨fun d => rfl, fun t => rfl, fun t => ?_⟩
  simp [render_to_v1_recipe_format, RecipeParser.diff, RecipeParser.render, loadRecipe, renderNode]

/-- Counterexample to claim C3 as stated: in the scenario where the
selector-on-non-list-item issue occurs at `/outputs/0/script` and
`/outputs/1/script` across two independent passes within one document,
the message table records four WARNINGs, not two (as asserted for
`google-cloud-cpp.yaml` by `test_render_to_v1_recipe_format`). -/
theorem claim_c3_counterexample :
    ((render_to_v1_recipe_format gcRecipe).1.2.1.get_messages .WARNING).length = 4
    ∧ ¬ ((render_to_v1_recipe_format gcRecipe).1.2.1.get_messages .WARNING).length = 2 := by
  decide

/-- Counterexample to claim C5 as stated: the legacy-substitution rewrite
is not idempotent on every input; on the three-brace text a second
application adds another `$`. -/
theorem claim_c5_counterexample :
    upgradeJinjaSub (upgradeJinjaSub tripleBraceText) ≠ upgradeJinjaSub tripleBraceText := by
  decide

/-- Counterexample to claim C8 as stated: the `MULTILINE` pattern is not
end-anchored, so it also recognizes a line whose text after the `|`
indicator is neither whitespace nor a trailing comment. -/
theorem claim_c8_counterexample :
    multilineMatched ("a: |x").data = true ∧ blockScalarLineSpec ("a: |x").data = false := by
  decide

/-- A text without any `PRE_PROCESS_ENVIRON` match is returned unchanged
by the pre-processing scan, for any fuel. -/
theorem ppEnvironAux_no_match : ∀ (fuel : Nat) (s : List Char),
    hasEnvironMatch s = false → ppEnvironAux fuel s = s
  | 0, _, _ => rfl
  | _ + 1, [], _ => rfl
  | fuel + 1, c :: rest, h => by
    simp only [hasEnvironMatch, Bool.or_eq_false_iff] at h
    obtain ⟨h1, h2⟩ := h
    simp only [ppEnvironAux]
    rcases he : environMatchAt (c :: rest) with _ | val
    · simp [ppEnvironAux_no_match fuel rest h2]
    · rw [he] at h1
      simp at h1

/-- A `PRE_PROCESS_ENVIRON` match can only start at a whitespace
character (the `\s+` of the pattern). -/
theorem environMatchAt_head_ws (c : Char) (rest : List Char)
    (h : (environMatchAt (c :: rest)).isSome = true) : isWsChar c = true := by
  by_cases hw : isWsChar c = true
  · exact hw
  · rw [Bool.not_eq_true] at hw
    simp only [environMatchAt, hw] at h
    simp at h

/-- Claim C7: the pre-processor rewrites an `environ[...]` lookup only
when it is preceded by at least one whitespace character; an occurrence
immediately preceded by a non-whitespace character, such as
`os.environ[...]`, is left unchanged; the function is total and returns
the input unchanged when nothing matches. -/
theorem claim_c7_environ_requires_leading_whitespace :
    (∀ (c : Char) (rest : List Char),
        (environMatchAt (c :: rest)).isSome = true → isWsChar c = true)
    ∧ (∀ s : String, hasEnvironMatch s.data = false → pre_process_recipe_text s = s)
    ∧ pre_process_recipe_text "name: os.environ[\x22PATH\x22]" = "name: os.environ[\x22PATH\x22]"
    ∧ pre_process_recipe_text "name: environ[\x22PATH\x22]" ≠ "name: environ[\x22PATH\x22]" := by
  refine ⟨environMatchAt_head_ws, ?_, by decide, by decide⟩
  intro s h
  show String.mk (ppEnvironAux s.data.length s.data) = s
  rw [ppEnvironAux_no_match s.data.length s.data h]

/-- Witness for claim C7 at concrete inputs. -/
theorem claim_c7_environ_requires_leading_whitespace_witness :
    isWsChar ' ' = true ∧ pre_process_recipe_text "pkg" = "pkg" :=
  ⟨claim_c7_environ_requires_leading_whitespace.1 ' ' ("environ[\x22A\x22]").data (by decide),
   claim_c7_environ_requires_leading_whitespace.2.1 "pkg" (by decide)⟩

/-- A `JINJA_LINE` closing `%\x7d` requires a following newline. -/
theorem closesPctNl_mem : ∀ {s : List Char}, closesPctNl s = true → '\n' ∈ s
  | c :: rest, h => by
    simp only [closesPctNl] at h
    split at h
    · simp at h
    · simp only [Bool.or_eq_true, Bool.and_eq_true] at h
      rcases h with h1 | h1
      · have h2 := h1.2
        rcases rest with _ | ⟨d, _ | ⟨e, rest3⟩⟩
        · simp at h2
        · simp at h2
        · simp only [Bool.and_eq_true, decide_eq_true_eq] at h2
          obtain ⟨_, rfl⟩ := h2
          exact List.mem_cons_of_mem _ (List.mem_cons_of_mem _ (List.mem_cons_self _ _))
      · exact List.mem_cons_of_mem _ (closesPctNl_mem h1)

/-- A `JINJA_LINE` closing `#\x7d` requires a following newline. -/
theorem closesHashNl_mem : ∀ {s : List Char}, closesHashNl s = true → '\n' ∈ s
  | c :: rest, h => by
    simp only [closesHashNl] at h
    split at h
    · simp at h
    · simp only [Bool.or_eq_true, Bool.and_eq_true] at h
      rcases h with h1 | h1
      · have h2 := h1.2
        rcases rest with _ | ⟨d, _ | ⟨e, rest3⟩⟩
        · simp at h2
        · simp at h2
        · simp only [Bool.and_eq_true, decide_eq_true_eq] at h2
          obtain ⟨_, rfl⟩ := h2
          exact List.mem_cons_of_mem _ (List.mem_cons_of_mem _ (List.mem_cons_self _ _))
      · exact List.mem_cons_of_mem _ (closesHashNl_mem h1)

/-- The `\s*\n` suffix requires a newline. -/
theorem wsThenNl_mem : ∀ {s : List Char}, wsThenNl s = true → '\n' ∈ s
  | c :: rest, h => by
    simp only [wsThenNl, Bool.or_eq_true, Bool.and_eq_true] at h
    rcases h with h1 | h1
    · have hc : c = '\n' := of_decide_eq_true h1
      subst hc
      exact List.mem_cons_self _ _
    · exact List.mem_cons_of_mem _ (wsThenNl_mem h1.2)

/-- A `JINJA_SET_LINE` closing `%\x7d\s*\n` requires a newline. -/
theorem closesPctWsNl_mem : ∀ {s : List Char}, closesPctWsNl s = true → '\n' ∈ s
  | c :: rest, h => by
    simp only [closesPctWsNl] at h
    split at h
    · simp at h
    · simp only [Bool.or_eq_true, Bool.and_eq_true] at h
      rcases h with h1 | h1
      · have h2 := h1.2
        rcases rest with _ | ⟨d, rest2⟩
        · simp at h2
        · simp only [Bool.and_eq_true] at h2
          exact List.mem_cons_of_mem _ (List.mem_cons_of_mem _ (wsThenNl_mem h2.2))
      · exact List.mem_cons_of_mem _ (closesPctWsNl_mem h1)

/-- The `\s*=` continuation of `JINJA_SET_LINE` requires a newline
further on. -/
theorem wsThenEqClose_mem : ∀ {s : List Char}, wsThenEqClose s = true → '\n' ∈ s
  | c :: rest, h => by
    simp only [wsThenEqClose, Bool.or_eq_true, Bool.and_eq_true] at h
    rcases h with h1 | h1
    · exact List.mem_cons_of_mem _ (closesPctWsNl_mem h1.2)
    · exact List.mem_cons_of_mem _ (wsThenEqClose_mem h1.2)

/-- The variable-name continuation of `JINJA_SET_LINE` requires a newline
further on. -/
theorem bodyThenEqClose_mem : ∀ {s : List Char}, bodyThenEqClose s = true → '\n' ∈ s
  | c :: rest, h => by
    simp only [bodyThenEqClose, Bool.or_eq_true, Bool.and_eq_true] at h
    rcases h with (h1 | h1) | h1
    · exact List.mem_cons_of_mem _ (closesPctWsNl_mem h1.2)
    · exact List.mem_cons_of_mem _ (bodyThenEqClose_mem h1.2)
    · exact List.mem_cons_of_mem _ (wsThenEqClose_mem h1.2)

/-- The variable-name part of `JINJA_SET_LINE` requires a newline further
on. -/
theorem setVarScan_mem : ∀ {s : List Char}, setVarScan s = true → '\n' ∈ s
  | c :: rest, h => by
    simp only [setVarScan, Bool.or_eq_true, Bool.and_eq_true] at h
    rcases h with h1 | h1
    · exact List.mem_cons_of_mem _ (bodyThenEqClose_mem h1.2)
    · exact List.mem_cons_of_mem _ (setVarScan_mem h1.2)

/-- The `\s*set...` part of `JINJA_SET_LINE` requires a newline further
on. -/
theorem setAfterPct_mem : ∀ {s : List Char}, setAfterPct s = true → '\n' ∈ s
  | c :: rest, h => by
    simp only [setAfterPct, Bool.or_eq_true, Bool.and_eq_true] at h
    rcases h with h1 | h1
    · have h2 := h1.2
      split at h2
      · exact List.mem_cons_of_mem _
          (List.mem_cons_of_mem _ (List.mem_cons_of_mem _ (setVarScan_mem h2)))
      · simp at h2
    · exact List.mem_cons_of_mem _ (setAfterPct_mem h1.2)

/-- Any `JINJA_LINE` match contains a newline. -/
theorem hasJinjaLineMatch_mem : ∀ {s : List Char}, hasJinjaLineMatch s = true → '\n' ∈ s
  | c :: rest, h => by
    simp only [hasJinjaLineMatch, Bool.or_eq_true, Bool.and_eq_true] at h
    rcases h with h1 | h1
    · have h2 := h1.2
      rcases rest with _ | ⟨d, rest2⟩
      · simp at h2
      · simp only [Bool.or_eq_true, Bool.and_eq_true] at h2
        rcases h2 with h3 | h3
        · exact List.mem_cons_of_mem _ (List.mem_cons_of_mem _ (closesPctNl_mem h3.2))
        · exact List.mem_cons_of_mem _ (List.mem_cons_of_mem _ (closesHashNl_mem h3.2))
    · exact List.mem_cons_of_mem _ (hasJinjaLineMatch_mem h1)

/-- Any `JINJA_SET_LINE` match contains a newline. -/
theorem hasJinjaSetLineMatch_mem : ∀ {s : List Char}, hasJinjaSetLineMatch s = true → '\n' ∈ s
  | c :: rest, h => by
    simp only [hasJinjaSetLineMatch, Bool.or_eq_true, Bool.and_eq_true] at h
    rcases h with h1 | h1
    · have h2 := h1.2
      rcases rest with _ | ⟨d, rest2⟩
      · simp at h2
      · simp only [Bool.and_eq_true] at h2
        exact List.mem_cons_of_mem _ (List.mem_cons_of_mem _ (setAfterPct_mem h2.2))
    · exact List.mem_cons_of_mem _ (hasJinjaSetLineMatch_mem h1)

/-- Claim C10: the templating control-line patterns match only text
containing a terminating newline: a control line or a `set` assignment
line occurring as the final line of the input with no trailing newline is
not matched. -/
theorem claim_c10_control_lines_require_newline :
    (∀ s : List Char, hasJinjaLineMatch s = true → '\n' ∈ s)
    ∧ (∀ s : List Char, hasJinjaSetLineMatch s = true → '\n' ∈ s)
    ∧ hasJinjaSetLineMatch exampleSetLine = false
    ∧ hasJinjaLineMatch exampleSetLine = false
    ∧ hasJinjaLineMatch exampleCommentLine = false
    ∧ hasJinjaSetLineMatch (exampleSetLine ++ ['\n']) = true
    ∧ hasJinjaLineMatch (exampleSetLine ++ ['\n']) = true
    ∧ hasJinjaLineMatch (exampleCommentLine ++ ['\n']) = true := by
  exact ⟨fun _ => hasJinjaLineMatch_mem, fun _ => hasJinjaSetLineMatch_mem,
    by decide, by decide, by decide, by decide, by decide, by decide⟩

/-- Witness for claim C10 at a concrete input. -/
theorem claim_c10_control_lines_require_newline_witness :
    '\n' ∈ exampleSetLine ++ ['\n'] ∧ '\n' ∈ exampleCommentLine ++ ['\n'] :=
  ⟨claim_c10_control_lines_require_newline.2.1 _ (by decide),
   claim_c10_control_lines_require_newline.1 _ (by decide)⟩

/-- The substitution scanner copies a head character that cannot start a
match. -/
theorem jinjaReplaceV0Go_cons_ne (d : Bool) (c : Char) (r : List Char) (h : ¬ c = lbrace) :
    jinjaReplaceV0Go d (c :: r) = c :: jinjaReplaceV0Go (c = '$') r := by
  cases r with
  | nil => rfl
  | cons c2 r2 =>
    simp only [jinjaReplaceV0Go]
    rw [if_neg fun hc => h hc.1]

/-- No triple brace in a text means none in its tail. -/
theorem hasTripleBrace_tail {c : Char} {r : List Char} (h : hasTripleBrace (c :: r) = false) :
    hasTripleBrace r = false := by
  simp only [hasTripleBrace, Bool.or_eq_false_iff] at h
  exact h.2

/-- A match at the head of the text is copied with a `$` prefix when the
look-behind state is clear. -/
theorem go_bb_false (r : List Char) :
    jinjaReplaceV0Go false (lbrace :: lbrace :: r)
      = '$' :: lbrace :: lbrace :: jinjaReplaceV0Go false r := by
  simp [jinjaReplaceV0Go]

/-- A blocked match (look-behind `$`) copies one brace and rescans. -/
theorem go_bb_true (r : List Char) :
    jinjaReplaceV0Go true (lbrace :: lbrace :: r)
      = lbrace :: jinjaReplaceV0Go false (lbrace :: r) := by
  simp [jinjaReplaceV0Go]

/-- A lone opening brace (not followed by another) is copied. -/
theorem go_lb_ne (d : Bool) (c3 : Char) (r : List Char) (h : ¬ c3 = lbrace) :
    jinjaReplaceV0Go d (lbrace :: c3 :: r) = lbrace :: jinjaReplaceV0Go false (c3 :: r) := by
  simp only [jinjaReplaceV0Go]
  rw [if_neg fun hc => h hc.2]
  rw [show (decide (lbrace = '$')) = false from by decide]

/-- The legacy-substitution rewrite is idempotent on every text without
three consecutive opening braces, for any look-behind state. -/
theorem jinjaReplaceV0Go_idem : ∀ (s : List Char) (d : Bool), hasTripleBrace s = false →
    jinjaReplaceV0Go d (jinjaReplaceV0Go d s) = jinjaReplaceV0Go d s
  | [], _, _ => rfl
  | [_], _, _ => rfl
  | c :: c2 :: rest2, d, h => by
    by_cases hbb : c = lbrace ∧ c2 = lbrace
    · obtain ⟨rfl, rfl⟩ := hbb
      rcases rest2 with _ | ⟨c3, rest3⟩
      · cases d <;> decide
      · have hc3 : ¬ c3 = lbrace := by
          intro hc3
          subst hc3
          simp [hasTripleBrace] at h
        have h3 : hasTripleBrace rest3 = false :=
          hasTripleBrace_tail (hasTripleBrace_tail (hasTripleBrace_tail h))
        have ih := jinjaReplaceV0Go_idem rest3 (c3 = '$') h3
        cases d
        · rw [go_bb_false, jinjaReplaceV0Go_cons_ne false '$' _ (by decide),
              show (decide ('$' = '$')) = true from by decide,
              jinjaReplaceV0Go_cons_ne _ c3 rest3 hc3, go_bb_true, go_lb_ne _ _ _ hc3,
              jinjaReplaceV0Go_cons_ne _ c3 _ hc3, ih]
        · rw [go_bb_true, go_lb_ne _ _ _ hc3, jinjaReplaceV0Go_cons_ne _ c3 rest3 hc3,
              go_bb_true, go_lb_ne _ _ _ hc3, jinjaReplaceV0Go_cons_ne _ c3 _ hc3, ih]
    · by_cases hc : c = lbrace
      · subst hc
        have hc2 : ¬ c2 = lbrace := fun h2 => hbb ⟨rfl, h2⟩
        have h2 : hasTripleBrace rest2 = false := hasTripleBrace_tail (hasTripleBrace_tail h)
        have ih := jinjaReplaceV0Go_idem rest2 (c2 = '$') h2
        rw [go_lb_ne _ _ _ hc2, jinjaReplaceV0Go_cons_ne _ c2 rest2 hc2, go_lb_ne _ _ _ hc2,
            jinjaReplaceV0Go_cons_ne _ c2 _ hc2, ih]
      · have h1 : hasTripleBrace (c2 :: rest2) = false := hasTripleBrace_tail h
        have ih := jinjaReplaceV0Go_idem (c2 :: rest2) (c = '$') h1
        rw [jinjaReplaceV0Go_cons_ne d c _ hc, jinjaReplaceV0Go_cons_ne _ c _ hc, ih]

/-- Claim C5 (amended): the legacy-substitution upgrade never adds a `$`
before a pair of braces already directly preceded by `$`, and applying it
twice equals applying it once on every input without three consecutive
opening braces (on such overlapping brace runs a second application can
add a further `$`, see the counterexample). -/
theorem claim_c5_amended :
    (∀ s : String, hasTripleBrace s.data = false →
        upgradeJinjaSub (upgradeJinjaSub s) = upgradeJinjaSub s)
    ∧ upgradeJinjaSub newSyntaxText = newSyntaxText
    ∧ upgradeJinjaSub legacySyntaxText = newSyntaxText := by
  refine ⟨?_, by decide, by decide⟩
  intro s h
  exact congrArg String.mk (jinjaReplaceV0Go_idem s.data false h)

/-- Witness for claim C5 (amended) at a concrete input. -/
theorem claim_c5_amended_witness :
    hasTripleBrace legacySyntaxText.data = false
    ∧ upgradeJinjaSub (upgradeJinjaSub legacySyntaxText) = upgradeJinjaSub legacySyntaxText :=
  ⟨by decide, claim_c5_amended.1 legacySyntaxText (by decide)⟩

/-- A tail of the claimed block-scalar shape satisfies the pattern's
unanchored `(\||>)` continuation. -/
theorem pipeTailAfterWs_to_pipeAfterWs : ∀ {l : List Char},
    pipeTailAfterWs l = true → pipeAfterWs l = true
  | c :: rest, h => by
    simp only [pipeTailAfterWs, Bool.or_eq_true, Bool.and_eq_true] at h
    simp only [pipeAfterWs, Bool.or_eq_true, Bool.and_eq_true]
    rcases h with h1 | h1
    · exact Or.inl h1.1
    · exact Or.inr ⟨h1.1, pipeTailAfterWs_to_pipeAfterWs h1.2⟩

/-- On a newline-free line, the claimed block-scalar shape implies a
`MULTILINE` scan hit. -/
theorem blockScalarLineSpec_to_mmScan : ∀ {l : List Char},
    '\n' ∉ l → blockScalarLineSpec l = true → mmScan l = true
  | c :: rest, hnl, h => by
    simp only [blockScalarLineSpec, Bool.or_eq_true, Bool.and_eq_true] at h
    have hc : ¬ c = '\n' := fun hc => hnl (by rw [hc]; exact List.mem_cons_self _ _)
    simp only [mmScan]
    rw [if_neg hc]
    simp only [Bool.or_eq_true, Bool.and_eq_true]
    rcases h with h1 | h1
    · left
      refine ⟨h1.1, ?_⟩
      have h2 := h1.2
      rcases rest with _ | ⟨d, rest2⟩
      · simp at h2
      · simp only [Bool.and_eq_true] at h2
        simp only [wsThenPipe, Bool.and_eq_true]
        exact ⟨h2.1, pipeTailAfterWs_to_pipeAfterWs h2.2⟩
    · right
      exact blockScalarLineSpec_to_mmScan (fun hm => hnl (List.mem_cons_of_mem _ hm)) h1

/-- The claimed block-scalar shape is preserved by dropping the leading
whitespace. -/
theorem blockScalarLineSpec_dropWhile : ∀ {l : List Char}, blockScalarLineSpec l = true →
    blockScalarLineSpec (l.dropWhile isWsChar) = true
  | c :: rest, h => by
    by_cases hw : isWsChar c = true
    · rw [List.dropWhile_cons, if_pos hw]
      simp only [blockScalarLineSpec, Bool.or_eq_true, Bool.and_eq_true] at h
      rcases h with h1 | h1
      · have : c = ':' := of_decide_eq_true h1.1
        subst this
        simp [isWsChar] at hw
      · exact blockScalarLineSpec_dropWhile h1
    · rw [List.dropWhile_cons, if_neg hw]
      exact h

/-- Claim C8 (amended): every line of the claimed shape — a mapping value
introduced by `|` or `>`, an optional single chomping indicator, then
nothing but whitespace or whitespace and a trailing `#` comment — is
recognized by the `MULTILINE` pattern; as the pattern is not end-anchored
the converse fails (see the counterexample).  Rendering a block scalar
reproduces its value, internal line breaks included, verbatim. -/
theorem claim_c8_amended :
    (∀ line : List Char, '\n' ∉ line → blockScalarLineSpec line = true →
        multilineMatched line = true)
    ∧ (∀ v : String, renderNode (.scalar v none) = v)
    ∧ blockScalarLineSpec ("  key: >-  # note").data = true
    ∧ multilineMatched ("  key: >-  # note").data = true := by
  refine ⟨?_, fun v => rfl, by decide, by decide⟩
  intro line hnl h
  have h1 := blockScalarLineSpec_dropWhile h
  have hnl2 : '\n' ∉ line.dropWhile isWsChar :=
    fun hm => hnl ((List.dropWhile_sublist _).subset hm)
  exact blockScalarLineSpec_to_mmScan hnl2 h1

/-- Witness for claim C8 (amended) at a concrete line. -/
theorem claim_c8_amended_witness : multilineMatched ("b: |").data = true :=
  claim_c8_amended.1 ("b: |").data (by decide) (by decide)

/-- The Document's modification flag after a sequence of operations is the
fold of the per-operation flag step. -/
theorem applyOps_modified : ∀ (ops : List DocOp) (d : RecipeParser),
    (applyOps d ops).modified = flagAfter d.modified ops
  | [], _ => rfl
  | op :: ops, d => by
    have h1 : (applyOp d op).modified = flagStep d.modified op := by
      cases op <;> rfl
    show (applyOps (applyOp d op) ops).modified = flagAfter (flagStep d.modified op) ops
    rw [applyOps_modified ops (applyOp d op), h1]

/-- The flag fold tracks emptiness of the collected
operations-since-last-clean. -/
theorem flagAfter_eq_cleanList : ∀ (ops acc : List DocOp) (b : Bool),
    b = !acc.isEmpty →
    List.foldl flagStep b ops = !(List.foldl cleanStep acc ops).isEmpty
  | [], _, _, hb => hb
  | op :: ops, acc, b, _ => by
    show List.foldl flagStep (flagStep b op) ops
        = !(List.foldl cleanStep (cleanStep acc op) ops).isEmpty
    apply flagAfter_eq_cleanList ops (cleanStep acc op) (flagStep b op)
    cases op with
    | mark_clean => rfl
    | set_value p n => rcases acc with _ | ⟨a, acc⟩ <;> simp [cleanStep, flagStep]
    | remove_value p => rcases acc with _ | ⟨a, acc⟩ <;> simp [cleanStep, flagStep]

/-- Every collected operation-since-last-clean is a mutating operation. -/
theorem mem_cleanList_mutating : ∀ (ops acc : List DocOp),
    (∀ o ∈ acc, o.isMutating = true) →
    ∀ o ∈ List.foldl cleanStep acc ops, o.isMutating = true
  | [], _, hacc => hacc
  | op :: ops, acc, hacc => by
    show ∀ o ∈ List.foldl cleanStep (cleanStep acc op) ops, o.isMutating = true
    apply mem_cleanList_mutating ops (cleanStep acc op)
    cases op with
    | mark_clean => intro o ho; simp [cleanStep] at ho
    | set_value p n =>
      intro o ho
      simp only [cleanStep, List.mem_append, List.mem_singleton] at ho
      rcases ho with ho | rfl
      · exact hacc o ho
      · rfl
    | remove_value p =>
      intro o ho
      simp only [cleanStep, List.mem_append, List.mem_singleton] at ho
      rcases ho with ho | rfl
      · exact hacc o ho
      · rfl

/-- Claim C2: a Document loaded from text `T` with no mutating operation
applied renders exactly `T`, has an empty diff and a clear modification
flag; and after any operation sequence the flag is clear exactly when no
mutating operation occurred since load or since the last mark-clean (the
flag is a stored bit, no deep value comparison is involved). -/
theorem claim_c2_round_trip_and_modification_flag :
    (∀ t : String, (loadRecipe t).render = t ∧ (loadRecipe t).diff = ""
        ∧ (loadRecipe t).is_modified = false)
    ∧ (∀ (t : String) (ops : List DocOp),
        ((applyOps (loadRecipe t) ops).is_modified = false
          ↔ ∀ op ∈ opsSinceLastClean ops, op.isMutating = false)) := by
  constructor
  · intro t
    refine ⟨rfl, ?_, rfl⟩
    simp [RecipeParser.diff, RecipeParser.render, loadRecipe, renderNode]
  · intro t ops
    have h1 : (applyOps (loadRecipe t) ops).is_modified
        = !(opsSinceLastClean ops).isEmpty := by
      show (applyOps (loadRecipe t) ops).modified = _
      rw [applyOps_modified]
      exact flagAfter_eq_cleanList ops [] (loadRecipe t).modified rfl
    rw [h1]
    constructor
    · intro hfe op hop
      rcases he : opsSinceLastClean ops with _ | ⟨o, rest⟩
      · rw [he] at hop
        simp at hop
      · rw [he] at hfe
        simp at hfe
    · intro hall
      rcases he : opsSinceLastClean ops with _ | ⟨o, rest⟩
      · rfl
      · have hmem : o ∈ opsSinceLastClean ops := by
          rw [he]
          exact List.mem_cons_self _ _
        have hmut : o.isMutating = true :=
          mem_cleanList_mutating ops [] (by intro o ho; simp at ho) o hmem
        have hfalse : o.isMutating = false := hall o hmem
        rw [hmut] at hfalse
        exact absurd hfalse (by simp)

/-- Witness for claim C2 at a concrete text and operation list. -/
theorem claim_c2_round_trip_and_modification_flag_witness :
    (loadRecipe "pkg: demo").render = "pkg: demo"
    ∧ ((applyOps (loadRecipe "pkg: demo") [DocOp.mark_clean]).is_modified = false
        ↔ ∀ op ∈ opsSinceLastClean [DocOp.mark_clean], op.isMutating = false) :=
  ⟨(claim_c2_round_trip_and_modification_flag.1 "pkg: demo").1,
   claim_c2_round_trip_and_modification_flag.2 "pkg: demo" [DocOp.mark_clean]⟩

mutual

/-- Every diagnostic produced by the selector walk is the section-4.3
WARNING text for some path. -/
theorem mem_selWarnNode_shape : ∀ (path : List String) (n : Node) (m : String),
    m ∈ selWarnNode path n → ∃ p, m = selectorWarningMsg p
  | _, .scalar _ _, _ => by
    intro h
    simp [selWarnNode] at h
  | path, .sequence items _, m => by
    intro h
    simp only [selWarnNode] at h
    exact mem_selWarnItems_shape path 0 items m h
  | path, .mapping es _, m => by
    intro h
    simp only [selWarnNode] at h
    exact mem_selWarnEntries_shape path es m h
termination_by _ n _ => sizeOf n

/-- Sequence-walk case of `mem_selWarnNode_shape`. -/
theorem mem_selWarnItems_shape : ∀ (path : List String) (i : Nat) (items : List Node)
    (m : String), m ∈ selWarnItems path i items → ∃ p, m = selectorWarningMsg p
  | _, _, [], _ => by
    intro h
    simp [selWarnItems] at h
  | path, i, n :: rest, m => by
    intro h
    simp only [selWarnItems, List.mem_append] at h
    rcases h with h | h
    · exact mem_selWarnNode_shape _ _ _ h
    · exact mem_selWarnItems_shape _ _ _ _ h
termination_by _ _ items _ => sizeOf items

/-- Mapping-walk case of `mem_selWarnNode_shape`. -/
theorem mem_selWarnEntries_shape : ∀ (path : List String) (es : List (String × Node))
    (m : String), m ∈ selWarnEntries path es → ∃ p, m = selectorWarningMsg p
  | _, [], _ => by
    intro h
    simp [selWarnEntries] at h
  | path, (k, v) :: rest, m => by
    intro h
    simp only [selWarnEntries, List.mem_append] at h
    rcases h with (h | h) | h
    · split at h
      · exact ⟨path ++ [k], List.mem_singleton.mp h⟩
      · simp at h
    · exact mem_selWarnNode_shape (path ++ [k]) v m h
    · exact mem_selWarnEntries_shape _ _ _ h
termination_by _ es _ => sizeOf es

end

/-- Every diagnostic of the per-output pass is the section-4.3 WARNING
text for some path. -/
theorem mem_outputsSecondPass_shape (root : Node) (m : String)
    (h : m ∈ outputsSecondPassWarnings root) : ∃ p, m = selectorWarningMsg p := by
  rcases root with ⟨v, sel⟩ | ⟨items, sel⟩ | ⟨es, sel⟩
  · simp [outputsSecondPassWarnings] at h
  · simp [outputsSecondPassWarnings] at h
  · simp only [outputsSecondPassWarnings] at h
    rcases hl : es.lookup "outputs" with _ | node
    · rw [hl] at h
      simp at h
    · rcases node with ⟨v2, sel2⟩ | ⟨items2, sel2⟩ | ⟨es2, sel2⟩
      · rw [hl] at h
        simp at h
      · rw [hl] at h
        exact mem_selWarnItems_shape _ _ _ _ h
      · rw [hl] at h
        simp at h

/-- Claim C3 (amended): a selector attached to a node whose parent
container is a mapping makes the converter append the WARNING
`"A non-list item had a selector at: <path>"` with the node's
slash-joined path, in the order encountered and with duplicates
preserved; in the two-pass `/outputs/0/script`, `/outputs/1/script`
scenario *four* WARNINGs are recorded (the pair once per pass), each
naming its path, in the order encountered. -/
theorem claim_c3_amended :
    ((render_to_v1_recipe_format gcRecipe).1.2.1.get_messages .WARNING
      = [selectorWarningMsg ["outputs", "0", "script"],
         selectorWarningMsg ["outputs", "1", "script"],
         selectorWarningMsg ["outputs", "0", "script"],
         selectorWarningMsg ["outputs", "1", "script"]])
    ∧ ((render_to_v1_recipe_format simpleRecipe).1.2.1.get_messages .WARNING
      = [selectorWarningMsg ["package", "name"],
         selectorWarningMsg ["requirements", "empty_field2"]])
    ∧ ((render_to_v1_recipe_format gcRecipe).1.2.1.get_messages .ERROR = [])
    ∧ (∀ (d : RecipeParser) (m : String),
        m ∈ (render_to_v1_recipe_format d).1.2.1.get_messages .WARNING →
        ∃ p, m = selectorWarningMsg p) := by
  refine ⟨by decide, by decide, by decide, ?_⟩
  intro d m hm
  have hm2 : m ∈ convertSelectorWarnings d.root := hm
  simp only [convertSelectorWarnings, List.mem_append] at hm2
  rcases hm2 with h | h
  · exact mem_selWarnNode_shape _ _ _ h
  · exact mem_outputsSecondPass_shape _ _ h

/-- Witness for claim C3 (amended) at the concrete two-pass document. -/
theorem claim_c3_amended_witness :
    ∃ p, selectorWarningMsg ["outputs", "0", "script"] = selectorWarningMsg p :=
  claim_c3_amended.2.2.2 gcRecipe (selectorWarningMsg ["outputs", "0", "script"]) (by decide)

/-- Transitivity of the rank comparison. -/
theorem rankLe_trans (a b c : Option Nat) (h1 : rankLe a b = true) (h2 : rankLe b c = true) :
    rankLe a c = true := by
  cases a <;> cases b <;> cases c <;> simp_all [rankLe]
  all_goals omega

/-- Totality of the rank comparison. -/
theorem rankLe_total (a b : Option Nat) : rankLe a b || rankLe b a := by
  cases a <;> cases b <;> simp [rankLe]
  all_goals omega

/-- Claim C4: re-ordering a mapping under a canonicalization table is a
permutation of its entries — each entry's key/subtree pair left intact —
that places every table-ranked key before every unranked key, orders
ranked keys by ascending table rank, and keeps the unranked keys in their
original relative order (stable sort). -/
theorem claim_c4_canonical_sort_stable {α : Type} (tbl : List (String × Nat))
    (entries : List (String × α)) :
    List.Perm (sortMappingEntries tbl entries) entries
    ∧ List.Pairwise (fun a b => keyRank tbl a.1 = none → keyRank tbl b.1 = none)
        (sortMappingEntries tbl entries)
    ∧ List.Pairwise (fun a b => ∀ ra rb, keyRank tbl a.1 = some ra →
        keyRank tbl b.1 = some rb → ra ≤ rb) (sortMappingEntries tbl entries)
    ∧ (sortMappingEntries tbl entries).filter (fun e => (keyRank tbl e.1).isNone)
        = entries.filter (fun e => (keyRank tbl e.1).isNone) := by
  have htrans : ∀ a b c : String × α,
      rankLe (keyRank tbl a.1) (keyRank tbl b.1) = true →
      rankLe (keyRank tbl b.1) (keyRank tbl c.1) = true →
      rankLe (keyRank tbl a.1) (keyRank tbl c.1) = true :=
    fun _ _ _ => rankLe_trans _ _ _
  have htotal : ∀ a b : String × α,
      rankLe (keyRank tbl a.1) (keyRank tbl b.1)
        || rankLe (keyRank tbl b.1) (keyRank tbl a.1) :=
    fun _ _ => rankLe_total _ _
  have hsorted : (sortMappingEntries tbl entries).Pairwise
      (fun a b => rankLe (keyRank tbl a.1) (keyRank tbl b.1) = true) :=
    List.sorted_mergeSort htrans htotal entries
  refine ⟨List.mergeSort_perm entries _, ?_, ?_, ?_⟩
  · refine hsorted.imp ?_
    intro a b hab hna
    cases hb : keyRank tbl b.1 with
    | none => rfl
    | some r =>
      rw [hna, hb] at hab
      simp [rankLe] at hab
  · refine hsorted.imp ?_
    intro a b hab ra rb hra hrb
    rw [hra, hrb] at hab
    simpa [rankLe] using hab
  · have hpw : (entries.filter (fun e => (keyRank tbl e.1).isNone)).Pairwise
        (fun a b => rankLe (keyRank tbl a.1) (keyRank tbl b.1) = true) := by
      apply List.pairwise_of_forall_mem_list
      intro a ha b hb
      have ha2 := (List.mem_filter.mp ha).2
      have hb2 := (List.mem_filter.mp hb).2
      simp only [Option.isNone_iff_eq_none] at ha2 hb2
      rw [ha2, hb2]
      rfl
    have hsub : List.Sublist (entries.filter (fun e => (keyRank tbl e.1).isNone)) entries :=
      List.filter_sublist _
    have hst := List.sublist_mergeSort htrans htotal hpw hsub
    have hself : (entries.filter (fun e => (keyRank tbl e.1).isNone)).filter
        (fun e => (keyRank tbl e.1).isNone)
        = entries.filter (fun e => (keyRank tbl e.1).isNone) :=
      List.filter_eq_self.mpr (fun a ha => (List.mem_filter.mp ha).2)
    have h2 : List.Sublist (entries.filter (fun e => (keyRank tbl e.1).isNone))
        ((sortMappingEntries tbl entries).filter (fun e => (keyRank tbl e.1).isNone)) := by
      rw [← hself]
      exact hst.filter _
    have hlen : ((sortMappingEntries tbl entries).filter
          (fun e => (keyRank tbl e.1).isNone)).length
        = (entries.filter (fun e => (keyRank tbl e.1).isNone)).length :=
      ((List.mergeSort_perm entries _).filter _).length_eq
    exact (h2.eq_of_length hlen.symm).symm

/-- Witness for claim C4 at a concrete table and mapping. -/
theorem claim_c4_canonical_sort_stable_witness :
    List.Perm (sortMappingEntries TOP_LEVEL_KEY_SORT_ORDER sampleEntries) sampleEntries
    ∧ List.Pairwise
        (fun a b => keyRank TOP_LEVEL_KEY_SORT_ORDER a.1 = none →
          keyRank TOP_LEVEL_KEY_SORT_ORDER b.1 = none)
        (sortMappingEntries TOP_LEVEL_KEY_SORT_ORDER sampleEntries)
    ∧ List.Pairwise
        (fun a b => ∀ ra rb, keyRank TOP_LEVEL_KEY_SORT_ORDER a.1 = some ra →
          keyRank TOP_LEVEL_KEY_SORT_ORDER b.1 = some rb → ra ≤ rb)
        (sortMappingEntries TOP_LEVEL_KEY_SORT_ORDER sampleEntries)
    ∧ (sortMappingEntries TOP_LEVEL_KEY_SORT_ORDER sampleEntries).filter
          (fun e => (keyRank TOP_LEVEL_KEY_SORT_ORDER e.1).isNone)
        = sampleEntries.filter (fun e => (keyRank TOP_LEVEL_KEY_SORT_ORDER e.1).isNone) :=
  claim_c4_canonical_sort_stable TOP_LEVEL_KEY_SORT_ORDER sampleEntries

end CondaRecipeManager
